import Mathlib

/-!
Verification development for the EZyRB space-time POD module
(`ezyrb/spacetime_pod.py`) and the space-time snapshot database
(`ezyrb/spacetime_database.py`).

Two complementary shallow embeddings are used.

1. A typed value-level model over `ℚ` (exact arithmetic in place of
   floating point).  A snapshot tensor with axes (time, space, parameter)
   is a function `Fin T → Fin S → Fin P → ℚ`; matrices are Mathlib
   matrices over `Fin`-index types.  All numpy reshape operations are
   translated with their genuine Fortran-order (column-major) linear-index
   semantics via explicit `%`/`/` index arithmetic, so that the model is
   faithful to `np.reshape(..., order='F')`, `np.swapaxes`, `np.kron` and
   `@`/`dot` as used in the source.

2. A shape/state-level model of the Python control flow: the
   `SpaceTimePOD` instance with its attributes (`_modes`,
   `_modes_product_inv`, `_modes_inv`, `_space_points`, `_time_instants`,
   `_ntrain`, the retained sub-POD objects), where each numpy operation is
   tracked by the shape it produces and each failure (AttributeError on a
   missing/None attribute, shape mismatch in `dot`/`reshape`) is an
   `Option` failure.  This model settles the claims about construction
   errors, the unfitted state, caching and shape behaviour.

The base POD engine (`ezyrb/pod.py`) is not part of the analysed sources;
it is modelled from the specification, see `podReduce`, `podExpand`,
`FullRankPOD`, and (shape level) the rank parameters of `stReduceShape`.
-/

open Matrix

abbrev Mat (m n : ℕ) := Matrix (Fin m) (Fin n) ℚ

/-- A snapshot tensor with public axis convention: axis 0 is time, axis 1 is
space, axis 2 is parameter (training index), exactly as documented in
`SpaceTimePOD.reduce`. -/
abbrev Tensor3 (T S P : ℕ) : Type := Fin T → Fin S → Fin P → ℚ

/-! ### Fortran-order index arithmetic

A Fortran-order (column-major) flattening of a pair of axes `(fast, slow)`
with extents `(m, n)` sends the pair `(i, j)` to the linear index
`i + m * j`.  `finLo`/`finHi` decompose a linear index of `Fin (m * n)`
whose FIRST factor is the fast axis; `finRem`/`finQuot` decompose a linear
index of `Fin (m * p)` whose SECOND factor is the fast axis (this is the
convention of `np.kron`, where the block index is the slow one). -/

def finLo {m n : ℕ} (c : Fin (m * n)) : Fin m :=
  ⟨c.val % m, Nat.mod_lt _ (by
    rcases Nat.eq_zero_or_pos m with h | h
    · exact absurd c.2 (by simp [h])
    · exact h)⟩

def finHi {m n : ℕ} (c : Fin (m * n)) : Fin n :=
  ⟨c.val / m, Nat.div_lt_of_lt_mul c.2⟩

def finPair {m n : ℕ} (i : Fin m) (j : Fin n) : Fin (m * n) :=
  ⟨i.val + m * j.val, by
    calc i.val + m * j.val < m + m * j.val := by omega
      _ = m * (j.val + 1) := by ring
      _ ≤ m * n := Nat.mul_le_mul_left m j.2⟩

def finRem {m p : ℕ} (i : Fin (m * p)) : Fin p :=
  ⟨i.val % p, Nat.mod_lt _ (by
    rcases Nat.eq_zero_or_pos p with h | h
    · exact absurd i.2 (by simp [h])
    · exact h)⟩

def finQuot {m p : ℕ} (i : Fin (m * p)) : Fin m :=
  ⟨i.val / p, Nat.div_lt_of_lt_mul (lt_of_lt_of_eq i.2 (Nat.mul_comm m p))⟩

def finPairR {m p : ℕ} (hi : Fin m) (lo : Fin p) : Fin (m * p) :=
  ⟨lo.val + p * hi.val, by
    calc lo.val + p * hi.val < p + p * hi.val := by omega
      _ = p * (hi.val + 1) := by ring
      _ ≤ p * m := Nat.mul_le_mul_left p hi.2
      _ = m * p := Nat.mul_comm p m⟩

/-- Fortran-order `np.reshape` of an `m × n` matrix to a `p × q` matrix:
the entry at `(i, j)` of the result is the entry of `A` whose column-major
linear index equals `i + p * j`. -/
def reshapeF {m n p q : ℕ} (h : m * n = p * q) (A : Mat m n) : Mat p q :=
  fun i j =>
    A (finLo (Fin.cast h.symm (finPair i j))) (finHi (Fin.cast h.symm (finPair i j)))

/-! ### The value-level model of `SpaceTimePOD`

Source: `ezyrb/spacetime_pod.py`.  Throughout, `X` is the public tensor
with axes (time, space, parameter) and `temp = np.swapaxes(X, 0, 1)` is
the space-major view with axes (space, time, parameter). -/

/-- `X1 = np.reshape(temp, (temp.shape[0], -1), 'F')`: the space × (time ·
parameter) matrix; column `t + T * p` holds `temp[:, t, p] = X[t, :, p]`. -/
def stX1 {T S P : ℕ} (X : Tensor3 T S P) : Mat S (T * P) :=
  fun s c => X (finLo c) s (finHi c)

/-- `X2 = np.reshape(X, (X.shape[0], -1), 'F')`: the time × (space ·
parameter) matrix; column `s + S * p` holds `X[:, s, p]`. -/
def stX2 {T S P : ℕ} (X : Tensor3 T S P) : Mat T (S * P) :=
  fun t c => X t (finLo c) (finHi c)

/-- `X3 = np.reshape(temp, (-1, temp.shape[2]), 'F')`: the (space · time) ×
ntrain matrix; row `s + S * t` of column `p` is `X[t, s, p]`.  The row count
is written `T * S` to match the row count of the combined basis produced by
`np.kron` (numpy sees both as the same number). -/
def stX3 {T S P : ℕ} (X : Tensor3 T S P) : Mat (T * S) P :=
  fun r p => X (finQuot r) (finRem r) p

/-- `np.kron(A, B)` with its literal index semantics:
`K[i, j] = A[i / p, j / q] * B[i % p, j % q]` for `A : m × n`, `B : p × q`. -/
def npKron {m n p q : ℕ} (A : Mat m n) (B : Mat p q) : Mat (m * p) (n * q) :=
  fun i j => A (finQuot i) (finQuot j) * B (finRem i) (finRem j)

/-- Modelled from the spec: the base POD engine (`ezyrb/pod.py`, not among
the analysed sources) exposes, after `reduce(Y)`, an orthonormal-column
mode matrix `U = pod.modes`, and `reduce` returns the modal coefficients
of `Y`, i.e. `U.T.conj() @ Y` (real data, so `Uᵀ * Y`). -/
def podReduce {m n r : ℕ} (U : Mat m r) (Y : Mat m n) : Mat r n := Uᵀ * Y

/-- Modelled from the spec: `POD.expand(C) = pod.modes @ C`, the
reconstructed matrix in the same orientation as the matrix given to
`reduce`. -/
def podExpand {m r k : ℕ} (U : Mat m r) (C : Mat r k) : Mat m k := U * C

/-- Modelled from the spec: a sub-POD run at full rank (no truncation) on
input `Y` yields a mode matrix with orthonormal columns whose span contains
the columns of `Y`, so `expand (reduce Y) = Y` exactly.  This predicate
captures exactly those two facts about the modes matrix. -/
def FullRankPOD {m n r : ℕ} (U : Mat m r) (Y : Mat m n) : Prop :=
  Uᵀ * U = 1 ∧ U * (Uᵀ * Y) = Y

/-- `SpaceTimePOD._kronecker_spacetime_basis`: the combined basis
`np.kron(Psi, Phi)` built from the spatial modes `Phi` (from POD on `X1`)
and the temporal modes `Psi` (from POD on `X2`). -/
def stKronModes {T S a b : ℕ} (Phi : Mat S a) (Psi : Mat T b) : Mat (T * S) (b * a) :=
  npKron Psi Phi

/-- The per-spatial-mode projected matrix built inside
`SpaceTimePOD._tailored_basis_piece`: column `p` is
`X2[:, p*S:(p+1)*S] @ u`. -/
def stX2Phi {T S P : ℕ} (X : Tensor3 T S P) (u : Fin S → ℚ) : Mat T P :=
  fun t p => ∑ s, stX2 X t (finPair s p) * u s

/-- `SpaceTimePOD._tailored_spacetime_basis`: `np.hstack` of
`np.kron(tailored_Psi_i, u_i[:, None])` over the spatial modes `u_i`
(columns of `Phi`), where `tailored_Psi_i` is the temporal-mode matrix of
the i-th projected slice.  Column `i * r + j` of the result belongs to
piece `i` at its inner column `j`. -/
def stTailoredModes {T S a r : ℕ} (Phi : Mat S a) (Psi : Fin a → Mat T r) :
    Mat (T * S) (a * r) :=
  fun row c => Psi (finQuot c) (finQuot row) (finRem c) * Phi (finRem row) (finQuot c)

/-- The explicit matrix inverse `np.linalg.inv` (meaningful on invertible
square matrices, which is the only way the source uses it). -/
def matInvE {n : ℕ} (A : Mat n n) : Mat n n := (A.det)⁻¹ • A.adjugate

/-- Lines 116-132 of `SpaceTimePOD.reduce` for the tailored/kronecker
strategies: given the combined basis, flatten the space-major tensor to
`X3` and apply the cached inverse operator — the exact least-squares
operator `inv(modesᵀ modes) @ modesᵀ` when `optimal_modal_coefficients`
is set, else `np.linalg.pinv(modes)` (the numpy pseudo-inverse is an
external routine, passed here as the parameter `npinv`). -/
def stReduceCoeffs {T S P w : ℕ} (modes : Mat (T * S) w) (optimal : Bool)
    (npinv : Mat (T * S) w → Mat w (T * S)) (X : Tensor3 T S P) : Mat w P :=
  (if optimal then matInvE (modesᵀ * modes) * modesᵀ else npinv modes) * stX3 X

/-- `SpaceTimePOD.reduce` for the kronecker strategy, with the two sub-POD
mode extractions supplied as oracles `sOr`/`tOr` (they stand for
`POD(**args).reduce(...)` followed by `.modes`). -/
def stKronFitModes {T S P a b : ℕ} (sOr : Mat S (T * P) → Mat S a)
    (tOr : Mat T (S * P) → Mat T b) (X : Tensor3 T S P) : Mat (T * S) (b * a) :=
  stKronModes (sOr (stX1 X)) (tOr (stX2 X))

/-- `SpaceTimePOD.reduce` for the tailored strategy: spatial modes from POD
on `X1`, then one temporal POD per spatial mode column, run on the
projected slice matrix. -/
def stTailoredFitModes {T S P a r : ℕ} (sOr : Mat S (T * P) → Mat S a)
    (tOr : Mat T P → Mat T r) (X : Tensor3 T S P) : Mat (T * S) (a * r) :=
  stTailoredModes (sOr (stX1 X))
    (fun i => tOr (stX2Phi X (fun s => sOr (stX1 X) s i)))

/-- Lines 142-149 of `SpaceTimePOD.expand` (tailored/kronecker): multiply
the basis into the coefficients, reshape the flattened (space · time) axis
back to `(space, time, -1)` in Fortran order and swap axes back to the
public (time, space, parameter) convention.  Row `s + S * t` of
`modes @ X` becomes entry `(t, s, ·)` of the result. -/
def stExpandKT {T S w k : ℕ} (modes : Mat (T * S) w) (C : Mat w k) : Tensor3 T S k :=
  fun t s p => (modes * C) (finPairR t s) p

/-- `SpaceTimePOD._nested_spacetime_reduction`, first stage: the spatial
modal coefficients `self._spatial_modal_coeffs = spatial_pod.reduce(X1)`. -/
def nestedSpatialCoeffs {T S P a : ℕ} (U1 : Mat S a) (X : Tensor3 T S P) : Mat a (T * P) :=
  podReduce U1 (stX1 X)

/-- `coeffstime_mu = np.reshape(spatial_modal_coeffs, (-1, ntrain), 'F')`:
the (n_spatial_modes · time) × ntrain matrix fed to the second-stage
temporal POD. -/
def nestedCoeffstimeMu {T S P a : ℕ} (U1 : Mat S a) (X : Tensor3 T S P) : Mat (a * T) P :=
  reshapeF (by ring) (nestedSpatialCoeffs U1 X)

/-- `SpaceTimePOD.reduce` for the nested strategy: the returned value of
`self._temporal_pod.reduce(coeffstime_mu)`; `U2` is the temporal mode
matrix that the retained second-stage POD fits. -/
def nestedReduce {T S P a c : ℕ} (U1 : Mat S a) (U2 : Mat (a * T) c)
    (X : Tensor3 T S P) : Mat c P :=
  podReduce U2 (nestedCoeffstimeMu U1 X)

/-- The intermediate `coeffs_timemu` computed by `SpaceTimePOD.expand` in
the nested branch: `np.reshape(self._temporal_pod.expand(X).T,
(-1, time_instants * ntrain), 'F')`.  Note the transpose before the
Fortran-order reshape. -/
def nestedIntermediate {T P a c : ℕ} (U2 : Mat (a * T) c) (C : Mat c P) :
    Mat a (T * P) :=
  reshapeF (by ring) ((podExpand U2 C)ᵀ : Mat P (a * T))

/-- Fortran-order reshape of a matrix to the 3-axis space-major layout
`(S, T, P)` followed by `np.swapaxes(·, 0, 1)`: entry `(t, s, p)` of the
result has column-major linear index `s + S * t + S * T * p` in the
source matrix. -/
def reshapeSwapTo3 {m n S T P : ℕ} (h : m * n = S * (T * P)) (A : Mat m n) :
    Tensor3 T S P :=
  fun t s p =>
    A (finLo (Fin.cast h.symm (finPair s (finPair t p))))
      (finHi (Fin.cast h.symm (finPair s (finPair t p))))

/-- Lines 150-158 of `SpaceTimePOD.expand` (nested): temporal expand, then
transpose, Fortran reshape to `(-1, time_instants * ntrain)`, spatial
expand, transpose, Fortran reshape to `(space, time, ntrain)` and swap the
first two axes. -/
def nestedExpand {T S P a c : ℕ} (U1 : Mat S a) (U2 : Mat (a * T) c)
    (C : Mat c P) : Tensor3 T S P :=
  reshapeSwapTo3 (by ring)
    ((podExpand U1 (nestedIntermediate U2 C))ᵀ : Mat (T * P) S)

/-! ### The shape/state-level model of `SpaceTimePOD`

Python control flow of `spacetime_pod.py` tracked at the level of array
shapes and instance attributes.  `none` is a raised exception (for shape
payloads) or a missing/`None` attribute (for state fields): reading a
missing attribute or calling `.dot` on `None` raises, which the model
reports as an overall `none` result. -/

inductive STMethod
  | tailored
  | kronecker
  | nested
deriving DecidableEq

/-- The attributes a `SpaceTimePOD` instance carries, shape level.  A fresh
instance has every array-valued attribute `None`/absent, which both map to
`none` here. -/
structure STState where
  method : STMethod
  optimalModalCoefficients : Bool
  modes : Option (List ℕ)
  modesProductInv : Option (List ℕ)
  modesInv : Option (List ℕ)
  spacePoints : Option ℕ
  timeInstants : Option ℕ
  ntrain : Option ℕ
  temporalPod : Option (List ℕ)
  spatialPod : Option (List ℕ)
  spatialModalCoeffs : Option (List ℕ)
deriving DecidableEq

/-- The state built by `SpaceTimePOD.__init__` once the method name has
been resolved. -/
def stInitState (m : STMethod) (optimal : Bool) : STState :=
  ⟨m, optimal, none, none, none, none, none, none, none, none, none⟩

/-- The keys of `available_methods`, in insertion order. -/
def stMethodNames : List String := ["tailored", "kronecker", "nested"]

def stMethodOfName (name : String) : Option STMethod :=
  if name = "tailored" then some .tailored
  else if name = "kronecker" then some .kronecker
  else if name = "nested" then some .nested
  else none

/-- `SpaceTimePOD.__init__`: resolve the method name against
`available_methods`; an unknown name raises
`RuntimeError("Invalid method for POD. Please chose one among {}".format(', '.join(available_methods)))`. -/
def stInit (name : String) (optimal : Bool) : Except String STState :=
  match stMethodOfName name with
  | some m => .ok (stInitState m optimal)
  | none => .error ("Invalid method for POD. Please chose one among "
      ++ String.intercalate ", " stMethodNames)

/-- Shape of `A @ B` (`numpy` 2-D matmul); mismatched inner dimensions
raise. -/
def npMatmulShape : List ℕ → List ℕ → Option (List ℕ)
  | [m, n], [n2, p] => if n = n2 then some [m, p] else none
  | _, _ => none

/-- Shape of `A.T` for a 2-D array. -/
def npTransposeShape : List ℕ → Option (List ℕ)
  | [m, n] => some [n, m]
  | _ => none

/-- Shape of `np.reshape(A, (r, -1))`: the column count is inferred, which
requires `r` to divide the total size. -/
def npReshapeRowsInfer (shape : List ℕ) (r : ℕ) : Option (List ℕ) :=
  if r ≠ 0 ∧ shape.prod % r = 0 then some [r, shape.prod / r] else none

/-- Shape of `np.reshape(A, (-1, c))`. -/
def npReshapeColsInfer (shape : List ℕ) (c : ℕ) : Option (List ℕ) :=
  if c ≠ 0 ∧ shape.prod % c = 0 then some [shape.prod / c, c] else none

/-- Shape of `np.reshape(A, (s, t, -1))`. -/
def npReshape3Infer (shape : List ℕ) (s t : ℕ) : Option (List ℕ) :=
  if s * t ≠ 0 ∧ shape.prod % (s * t) = 0 then some [s, t, shape.prod / (s * t)]
  else none

/-- Shape of `np.reshape(A, (s, t, p))` with all extents given. -/
def npReshape3Exact (shape : List ℕ) (s t p : ℕ) : Option (List ℕ) :=
  if shape.prod = s * (t * p) then some [s, t, p] else none

/-- Shape of `np.kron(A, B)` for 2-D arrays. -/
def npKronShape : List ℕ → List ℕ → Option (List ℕ)
  | [m, n], [p, q] => some [m * p, n * q]
  | _, _ => none

/-- Shape of `np.linalg.inv(A)`: requires a square 2-D array. -/
def npInvShape : List ℕ → Option (List ℕ)
  | [m, n] => if m = n then some [m, n] else none
  | _ => none

/-- Shape of `np.linalg.pinv(A)` for a 2-D array. -/
def npPinvShape : List ℕ → Option (List ℕ)
  | [m, n] => some [n, m]
  | _ => none

/-- Shape of `np.hstack` of `count` equal 2-D blocks. -/
def npHstackShape (count : ℕ) (shape : List ℕ) : Option (List ℕ) :=
  match shape with
  | [r, c] => if count ≠ 0 then some [r, count * c] else none
  | _ => none

/-- Modelled from the spec: fitting the base POD engine on a 2-D matrix of
shape `m × n` with a configured truncation selecting `rank` modes stores a
mode matrix of shape `m × rank` and returns coefficients of shape
`rank × n`. -/
def podFitShape (rank : ℕ) : List ℕ → Option (List ℕ × List ℕ)
  | [m, n] => some ([m, rank], [rank, n])
  | _ => none

/-- Lines 116-132 of `SpaceTimePOD.reduce`: compute (or reuse) the cached
inverse operator and apply it to `X3`.  `st.modesProductInv`
(resp. `st.modesInv`) is only computed when it is `None`, mirroring the
`if ... is None` caches. -/
def stCoeffsShape (st : STState) (modes x3 : List ℕ) : Option (STState × List ℕ) :=
  if st.optimalModalCoefficients then
    match st.modesProductInv with
    | some op =>
      match npMatmulShape op x3 with
      | some out => some (st, out)
      | none => none
    | none =>
      match npTransposeShape modes with
      | none => none
      | some mt =>
        match npMatmulShape mt modes with
        | none => none
        | some mm =>
          match npInvShape mm with
          | none => none
          | some mmi =>
            match npMatmulShape mmi mt with
            | none => none
            | some op =>
              match npMatmulShape op x3 with
              | some out => some ({ st with modesProductInv := some op }, out)
              | none => none
  else
    match st.modesInv with
    | some op =>
      match npMatmulShape op x3 with
      | some out => some (st, out)
      | none => none
    | none =>
      match npPinvShape modes with
      | none => none
      | some op =>
        match npMatmulShape op x3 with
        | some out => some ({ st with modesInv := some op }, out)
        | none => none

/-- `SpaceTimePOD.reduce` at shape level.  `srank` (resp. `trank`) is the
number of modes each spatial (resp. temporal) sub-POD fit selects, the
only datum of the external POD engine that shapes depend on.  The input
must be a 3-D tensor with axes (time, space, parameter). -/
def stReduceShape (srank trank : ℕ) (st : STState) (xshape : List ℕ) :
    Option (STState × List ℕ) :=
  match xshape with
  | [t, s, p] =>
    -- temp = np.swapaxes(X, 0, 1); store the three extents (lines 101-103)
    let st1 := { st with spacePoints := some s, timeInstants := some t,
                         ntrain := some p }
    match npReshapeRowsInfer [s, t, p] s with
    | none => none
    | some x1 =>
      match st1.method with
      | .nested =>
        match podFitShape srank x1 with
        | none => none
        | some pc =>
          let st2 := { st1 with spatialPod := some pc.1,
                                spatialModalCoeffs := some pc.2 }
          match npReshapeColsInfer pc.2 p with
          | none => none
          | some ctm =>
            match podFitShape trank ctm with
            | none => none
            | some po => some ({ st2 with temporalPod := some po.1 }, po.2)
      | .kronecker =>
        match npReshapeRowsInfer [t, s, p] t with
        | none => none
        | some _x2 =>
          match podFitShape srank x1 with
          | none => none
          | some pc =>
            match podFitShape trank _x2 with
            | none => none
            | some po =>
              match npKronShape po.1 pc.1 with
              | none => none
              | some modes =>
                let st2 := { st1 with modes := some modes }
                match npReshapeColsInfer [s, t, p] p with
                | none => none
                | some x3 => stCoeffsShape st2 modes x3
      | .tailored =>
        match npReshapeRowsInfer [t, s, p] t with
        | none => none
        | some _x2 =>
          match podFitShape srank x1 with
          | none => none
          | some pc =>
            -- each piece: X2Phi_i of shape [t, p], a temporal fit, then
            -- np.kron(tailored_Psi_i, u[:, None]); hstack over spatial modes
            match podFitShape trank [t, p] with
            | none => none
            | some po =>
              match npKronShape po.1 [s, 1] with
              | none => none
              | some piece =>
                match npHstackShape (pc.1.getD 1 0) piece with
                | none => none
                | some modes =>
                  let st2 := { st1 with modes := some modes,
                                        temporalPod := some po.1 }
                  match npReshapeColsInfer [s, t, p] p with
                  | none => none
                  | some x3 => stCoeffsShape st2 modes x3
  | _ => none

/-- `SpaceTimePOD.expand` at shape level.  Attribute reads happen in
source order, so on an unfitted instance the first missing attribute
(`self.modes` being `None`, or `self._temporal_pod` being absent) aborts
the call. -/
def stExpandShape (st : STState) (xshape : List ℕ) : Option (STState × List ℕ) :=
  match st.method with
  | .nested =>
    match st.temporalPod with
    | none => none
    | some tp =>
      match npMatmulShape tp xshape with
      | none => none
      | some ctm =>
        match npTransposeShape ctm with
        | none => none
        | some ctmT =>
          match st.timeInstants, st.ntrain with
          | some t, some p =>
            match npReshapeColsInfer ctmT (t * p) with
            | none => none
            | some resh =>
              match st.spatialPod with
              | none => none
              | some sp =>
                match npMatmulShape sp resh with
                | none => none
                | some x1 =>
                  match npTransposeShape x1 with
                  | none => none
                  | some x1T =>
                    match st.spacePoints with
                    | none => none
                    | some s =>
                      match npReshape3Exact x1T s t p with
                      | some [d0, d1, d2] => some (st, [d1, d0, d2])
                      | _ => none
          | _, _ => none
  | _ =>
    match st.modes with
    | none => none
    | some modes =>
      match npMatmulShape modes xshape with
      | none => none
      | some expanded =>
        match st.spacePoints, st.timeInstants with
        | some s, some t =>
          match npReshape3Infer expanded s t with
          | some [d0, d1, d2] => some (st, [d1, d0, d2])
          | _ => none
        | _, _ => none

/-! ### The model of `SpaceTimeDatabase` (`ezyrb/spacetime_database.py`)

Arrays are modelled as a shape together with an opaque payload tag: the
database stores array objects by reference, so storing is modelled as
storing the `NDArr` value itself; `np.vstack` builds a new array. -/

structure NDArr where
  shape : List ℕ
  tag : ℕ
deriving DecidableEq

/-- Python `len` of an array: the extent of its first axis. -/
def ndLen (A : NDArr) : ℕ := A.shape.headD 0

/-- `np.vstack([A, B])` for 2-D arrays: trailing dimensions must match. -/
def npVstack2 (A B : NDArr) : Option NDArr :=
  match A.shape, B.shape with
  | [m, k], [m2, k2] => if k = k2 then some ⟨[m + m2, k], A.tag⟩ else none
  | _, _ => none

/-- `np.vstack([A, B])` for 3-D arrays (stacks along axis 0): trailing
dimensions must match. -/
def npVstack3 (A B : NDArr) : Option NDArr :=
  match A.shape, B.shape with
  | [m, k, l], [m2, k2, l2] =>
      if k = k2 ∧ l = l2 then some ⟨[m + m2, k, l], A.tag⟩ else none
  | _, _ => none

/-- The stored fields `_parameters`, `_time_instants`, `_snapshots`. -/
structure STDb where
  parameters : Option NDArr
  timeInstants : Option NDArr
  snapshots : Option NDArr
deriving DecidableEq

def stdbEmpty : STDb := ⟨none, none, none⟩

/-- `SpaceTimeDatabase.add`.  Returns the post-call state together with
`none` on success (Python returns `self`) or `some msg` when an exception
is raised; the post-call state records any assignments executed before the
exception. -/
def stdbAdd (db : STDb) (params time snaps : NDArr) : STDb × Option String :=
  if snaps.shape.length ≠ 3 then
    (db, some "ValueError: The provided snapshot must be a 3D nparray")
  else if snaps.shape.headD 0 ≠ ndLen params
      ∨ snaps.shape.getD 2 0 ≠ ndLen time then
    (db, some "ValueError: Dimensions do not agree")
  else
    match db.parameters, db.timeInstants, db.snapshots with
    | none, none, none => (⟨some params, some time, some snaps⟩, none)
    | dbp, _, dbs =>
      match dbp with
      | none => (db, some "TypeError")
      | some p0 =>
        match npVstack2 p0 params with
        | none => (db, some "ValueError: all the input array dimensions must match")
        | some p1 =>
          let db1 := { db with parameters := some p1 }
          match dbs with
          | none => (db1, some "TypeError")
          | some s0 =>
            match npVstack3 s0 snaps with
            | none => (db1, some "ValueError: all the input array dimensions must match")
            | some s1 => ({ db1 with snapshots := some s1 }, none)

/-- `SpaceTimeDatabase.__init__`: zero or three of the data arguments must
be provided; with three, they are handed to `add` on the fresh empty
state. -/
def stdbInit (params time snaps : Option NDArr) : STDb × Option String :=
  match params, time, snaps with
  | none, none, none => (stdbEmpty, none)
  | some pa, some ti, some sn => stdbAdd stdbEmpty pa ti sn
  | _, _, _ => (stdbEmpty, some "RuntimeError: Wrong number of arguments")

/-! ### Concrete instances used in counterexamples and failing-input runs -/

/-- The failing input for the nested-strategy round trip: the tensor of
shape (time, space, parameter) = (2, 1, 2) with `X[t, 0, p] = 2 t + p + 1`,
i.e. `[[[1, 2]], [[3, 4]]]`. -/
def cbX : Tensor3 2 1 2 := fun t _ p => ((2 * t.val + p.val + 1 : ℕ) : ℚ)

/-- Full-rank spatial modes for `cbX`: `X1 = [[1, 3, 2, 4]]` has rank one,
and `[[1]]` is an orthonormal basis of its column space. -/
def cbU1 : Mat 1 1 := 1

/-- Full-rank temporal modes for the nested second stage on `cbX`:
`coeffstime_mu = [[1, 2], [3, 4]]` has rank two, and the identity is an
orthonormal basis of its column space. -/
def cbU2 : Mat (1 * 2) 2 := 1

/-- Concrete tensor for the nested-expand layout counterexample:
`[[[5, 6]], [[7, 8]]]`. -/
def c5X : Tensor3 2 1 2 := fun t _ p => ((2 * t.val + p.val + 5 : ℕ) : ℚ)

def c5U1 : Mat 1 1 := 1

def c5U2 : Mat (1 * 2) 2 := 1

/-- First batch stored in the database counterexample: 2 parameter points
with 3 components, 7 time instants, snapshots of shape (2, 5, 7). -/
def c10P1 : NDArr := ⟨[2, 3], 0⟩
def c10T1 : NDArr := ⟨[7], 1⟩
def c10S1 : NDArr := ⟨[2, 5, 7], 2⟩

/-- Second batch: passes every validation check of `add` (3-D, 3 parameter
rows, 9 time instants) but has interior dimensions (6, 9) incompatible
with the stored (5, 7) snapshots, so `np.vstack` raises. -/
def c10P2 : NDArr := ⟨[3, 3], 3⟩
def c10T2 : NDArr := ⟨[9], 4⟩
def c10S2 : NDArr := ⟨[3, 6, 9], 5⟩

/-- A concrete fitted kronecker-style state (as stored by `reduce` on a
(2, 1, 3) tensor at rank 2 sub-PODs would be, caches included); used to
witness the `expand` theorems. -/
def c9Fit : STState :=
  { method := .kronecker, optimalModalCoefficients := true,
    modes := some [2, 2], modesProductInv := some [2, 2],
    modesInv := none, spacePoints := some 1, timeInstants := some 2,
    ntrain := some 3, temporalPod := none, spatialPod := none,
    spatialModalCoeffs := none }

/-- The state a fresh kronecker instance reaches after `reduce` on a
(2, 1, 2) tensor with rank-1 sub-PODs; used to witness the caching
theorem. -/
def c4Fit : STState :=
  { method := .kronecker, optimalModalCoefficients := true,
    modes := some [2, 1], modesProductInv := some [1, 2],
    modesInv := none, spacePoints := some 1, timeInstants := some 2,
    ntrain := some 2, temporalPod := none, spatialPod := none,
    spatialModalCoeffs := none }

/-- The bijection between pair indices (slow, fast) and np.kron-style
linear indices of a flattened (space-fast, time-slow) axis. -/
def finPairREquiv (m p : ℕ) : Fin m × Fin p ≃ Fin (m * p) where
  toFun x := finPairR x.1 x.2
  invFun i := (finQuot i, finRem i)
  left_inv := by
    intro x
    have h1 : finQuot (finPairR x.1 x.2) = x.1 := by
      apply Fin.ext
      show (x.2.val + p * x.1.val) / p = x.1.val
      rw [Nat.add_mul_div_left _ _ (by have := x.2.2; omega),
        Nat.div_eq_of_lt x.2.2, Nat.zero_add]
    have h2 : finRem (finPairR x.1 x.2) = x.2 := by
      apply Fin.ext
      show (x.2.val + p * x.1.val) % p = x.2.val
      rw [Nat.add_mul_mod_self_left, Nat.mod_eq_of_lt x.2.2]
    calc (finQuot (finPairR x.1 x.2), finRem (finPairR x.1 x.2))
        = (x.1, finRem (finPairR x.1 x.2)) := by rw [h1]
      _ = (x.1, x.2) := by rw [h2]
  right_inv := by
    intro i
    apply Fin.ext
    show i.val % p + p * (i.val / p) = i.val
    exact Nat.mod_add_div i.val p

/-! ### Index lemmas -/

theorem finLo_finPair {m n : ℕ} (i : Fin m) (j : Fin n) : finLo (finPair i j) = i := by
  apply Fin.ext
  show (i.val + m * j.val) % m = i.val
  rw [Nat.add_mul_mod_self_left, Nat.mod_eq_of_lt i.2]

theorem finHi_finPair {m n : ℕ} (i : Fin m) (j : Fin n) : finHi (finPair i j) = j := by
  apply Fin.ext
  show (i.val + m * j.val) / m = j.val
  rw [Nat.add_mul_div_left _ _ (by have := i.2; omega), Nat.div_eq_of_lt i.2,
    Nat.zero_add]

theorem finRem_finPairR {m p : ℕ} (hi : Fin m) (lo : Fin p) :
    finRem (finPairR hi lo) = lo := by
  apply Fin.ext
  show (lo.val + p * hi.val) % p = lo.val
  rw [Nat.add_mul_mod_self_left, Nat.mod_eq_of_lt lo.2]

theorem finQuot_finPairR {m p : ℕ} (hi : Fin m) (lo : Fin p) :
    finQuot (finPairR hi lo) = hi := by
  apply Fin.ext
  show (lo.val + p * hi.val) / p = hi.val
  rw [Nat.add_mul_div_left _ _ (by have := lo.2; omega), Nat.div_eq_of_lt lo.2,
    Nat.zero_add]

/-! ### Shape-model computation lemmas -/

theorem npReshapeRowsInfer_mul (shape : List ℕ) (r k : ℕ) (hr : r ≠ 0)
    (hprod : shape.prod = r * k) : npReshapeRowsInfer shape r = some [r, k] := by
  unfold npReshapeRowsInfer
  rw [hprod, if_pos ⟨hr, Nat.mul_mod_right r k⟩,
    Nat.mul_div_cancel_left k (Nat.pos_of_ne_zero hr)]

theorem npReshapeColsInfer_mul (shape : List ℕ) (c k : ℕ) (hc : c ≠ 0)
    (hprod : shape.prod = k * c) : npReshapeColsInfer shape c = some [k, c] := by
  unfold npReshapeColsInfer
  rw [hprod, if_pos ⟨hc, Nat.mul_mod_left k c⟩,
    Nat.mul_div_cancel k (Nat.pos_of_ne_zero hc)]

theorem npReshape3Infer_mul (shape : List ℕ) (s t k : ℕ) (hst : s * t ≠ 0)
    (hprod : shape.prod = (s * t) * k) : npReshape3Infer shape s t = some [s, t, k] := by
  unfold npReshape3Infer
  rw [hprod, if_pos ⟨hst, Nat.mul_mod_right (s * t) k⟩,
    Nat.mul_div_cancel_left k (Nat.pos_of_ne_zero hst)]

theorem npReshape3Exact_eq (shape : List ℕ) (s t p : ℕ)
    (hprod : shape.prod = s * (t * p)) : npReshape3Exact shape s t p = some [s, t, p] := by
  unfold npReshape3Exact
  rw [hprod, if_pos rfl]

theorem prod3 (a b c : ℕ) : ([a, b, c] : List ℕ).prod = a * (b * c) := by simp

theorem prod2 (a b : ℕ) : ([a, b] : List ℕ).prod = a * b := by simp

/-- Shape-level run of `reduce` for the kronecker strategy on a fresh
instance: the combined basis has shape `(t*s, tr*sr)`, the chosen inverse
operator is cached, the three extents are stored, and the coefficients
have shape `(tr*sr, p)`. -/
theorem stReduceShape_kron (t s p sr tr : ℕ) (opt : Bool)
    (ht : t ≠ 0) (hs : s ≠ 0) (hp : p ≠ 0) :
    stReduceShape sr tr (stInitState .kronecker opt) [t, s, p] =
      some ({ method := .kronecker, optimalModalCoefficients := opt,
              modes := some [t * s, tr * sr],
              modesProductInv := if opt then some [tr * sr, t * s] else none,
              modesInv := if opt then none else some [tr * sr, t * s],
              spacePoints := some s, timeInstants := some t, ntrain := some p,
              temporalPod := none, spatialPod := none,
              spatialModalCoeffs := none }, [tr * sr, p]) := by
  have e1 := npReshapeRowsInfer_mul [s, t, p] s (t * p) hs (by rw [prod3])
  have e2 := npReshapeRowsInfer_mul [t, s, p] t (s * p) ht (by rw [prod3])
  have e3 := npReshapeColsInfer_mul [s, t, p] p (s * t) hp
    (by rw [prod3, Nat.mul_assoc])
  have e4 : t * s = s * t := Nat.mul_comm t s
  cases opt <;>
    simp only [stReduceShape, stInitState, e1, e2, e3, podFitShape, npKronShape,
      stCoeffsShape, npTransposeShape, npMatmulShape, npInvShape, npPinvShape, e4,
      if_true, if_false, eq_self_iff_true, if_pos rfl, Bool.false_eq_true]

/-- Shape-level run of `reduce` for the tailored strategy on a fresh
instance: the combined basis is the hstack of `sr` Kronecker pieces, one
per spatial mode, of `tr` columns each; the last temporal sub-POD is
retained; the coefficient path is the same as for kronecker. -/
theorem stReduceShape_tailored (t s p sr tr : ℕ) (opt : Bool)
    (ht : t ≠ 0) (hs : s ≠ 0) (hp : p ≠ 0) (hsr : sr ≠ 0) :
    stReduceShape sr tr (stInitState .tailored opt) [t, s, p] =
      some ({ method := .tailored, optimalModalCoefficients := opt,
              modes := some [t * s, sr * tr],
              modesProductInv := if opt then some [sr * tr, t * s] else none,
              modesInv := if opt then none else some [sr * tr, t * s],
              spacePoints := some s, timeInstants := some t, ntrain := some p,
              temporalPod := some [t, tr], spatialPod := none,
              spatialModalCoeffs := none }, [sr * tr, p]) := by
  have e1 := npReshapeRowsInfer_mul [s, t, p] s (t * p) hs (by rw [prod3])
  have e2 := npReshapeRowsInfer_mul [t, s, p] t (s * p) ht (by rw [prod3])
  have e3 := npReshapeColsInfer_mul [s, t, p] p (s * t) hp
    (by rw [prod3, Nat.mul_assoc])
  have e4 : t * s = s * t := Nat.mul_comm t s
  have e5 : tr * 1 = tr := Nat.mul_one tr
  cases opt <;>
    simp only [stReduceShape, stInitState, e1, e2, e3, podFitShape, npKronShape,
      npHstackShape, List.getD, e5, hsr, ne_eq, not_false_iff, if_true,
      stCoeffsShape, npTransposeShape, npMatmulShape, npInvShape, npPinvShape, e4,
      if_false, eq_self_iff_true, if_pos rfl, Bool.false_eq_true,
      List.getD, List.get?_cons_succ, List.get?_cons_zero, Option.getD_some]

/-- Shape-level run of `reduce` for the nested strategy on a fresh
instance: no combined basis and no inverse operator is computed; the two
sub-POD objects and the spatial coefficients are retained; the returned
coefficients have shape `(tr, p)`. -/
theorem stReduceShape_nested (t s p sr tr : ℕ) (opt : Bool)
    (ht : t ≠ 0) (hs : s ≠ 0) (hp : p ≠ 0) :
    stReduceShape sr tr (stInitState .nested opt) [t, s, p] =
      some ({ method := .nested, optimalModalCoefficients := opt,
              modes := none, modesProductInv := none, modesInv := none,
              spacePoints := some s, timeInstants := some t, ntrain := some p,
              temporalPod := some [sr * t, tr], spatialPod := some [s, sr],
              spatialModalCoeffs := some [sr, t * p] }, [tr, p]) := by
  have e1 := npReshapeRowsInfer_mul [s, t, p] s (t * p) hs (by rw [prod3])
  have e3 := npReshapeColsInfer_mul [sr, t * p] p (sr * t) hp
    (by rw [prod2, Nat.mul_assoc])
  simp only [stReduceShape, stInitState, e1, e3, podFitShape]

/-- Shape-level `expand` for the tailored/kronecker strategies on a fitted
state: any coefficient batch with the basis column count as row count
succeeds, and the parameter extent of the output equals the batch width. -/
theorem stExpandShape_kt (s t w k : ℕ) (st : STState)
    (hmeth : st.method ≠ .nested) (hmo : st.modes = some [t * s, w])
    (hsp : st.spacePoints = some s) (hti : st.timeInstants = some t)
    (hs : s ≠ 0) (ht : t ≠ 0) :
    stExpandShape st [w, k] = some (st, [t, s, k]) := by
  have e := npReshape3Infer_mul [t * s, k] s t k (Nat.mul_ne_zero hs ht)
    (by rw [prod2]; ring)
  cases hmm : st.method <;> try exact absurd hmm hmeth
  all_goals
    simp only [stExpandShape, hmm, hmo, hsp, hti, npMatmulShape, e,
      eq_self_iff_true, if_pos rfl, if_true]

/-- Shape-level `expand` for the nested strategy on a fitted state, with a
coefficient batch of exactly `ntrain` columns: succeeds with output shape
`(t, s, p)`. -/
theorem stExpandShape_nested_ok (s t p sr tr : ℕ) (st : STState)
    (hmeth : st.method = .nested) (htp : st.temporalPod = some [sr * t, tr])
    (hspod : st.spatialPod = some [s, sr]) (hS : st.spacePoints = some s)
    (hT : st.timeInstants = some t) (hP : st.ntrain = some p)
    (htp0 : t * p ≠ 0) :
    stExpandShape st [tr, p] = some (st, [t, s, p]) := by
  have e1 := npReshapeColsInfer_mul [p, sr * t] (t * p) sr htp0
    (by rw [prod2]; ring)
  have e2 := npReshape3Exact_eq [t * p, s] s t p (by rw [prod2]; ring)
  simp only [stExpandShape, hmeth, htp, hspod, hS, hT, hP, npMatmulShape,
    npTransposeShape, e1, e2, eq_self_iff_true, if_pos rfl, if_true]

/-- Shape-level `expand` for the nested strategy with a coefficient batch
whose width differs from `ntrain`: the call raises (either the inferred
reshape or the spatial-expand matmul fails). -/
theorem stExpandShape_nested_fail (s t p sr tr k : ℕ) (st : STState)
    (hmeth : st.method = .nested) (htp : st.temporalPod = some [sr * t, tr])
    (hspod : st.spatialPod = some [s, sr]) (hS : st.spacePoints = some s)
    (hT : st.timeInstants = some t) (hP : st.ntrain = some p)
    (hk : k ≠ p) (hsr : sr ≠ 0) (ht : t ≠ 0) (hp : p ≠ 0) :
    stExpandShape st [tr, k] = none := by
  by_cases hdvd : ([k, sr * t] : List ℕ).prod % (t * p) = 0
  · have hne : sr ≠ ([k, sr * t] : List ℕ).prod / (t * p) := by
      intro heq
      have hdvd2 : (t * p) ∣ ([k, sr * t] : List ℕ).prod :=
        Nat.dvd_of_mod_eq_zero hdvd
      have hmc := Nat.div_mul_cancel hdvd2
      rw [← heq] at hmc
      rw [prod2] at hmc
      have hcancel : sr * (t * p) = sr * (t * k) := by
        calc sr * (t * p) = k * (sr * t) := hmc
          _ = sr * (t * k) := by ring
      have h1 := Nat.eq_of_mul_eq_mul_left (Nat.pos_of_ne_zero hsr) hcancel
      have h2 := Nat.eq_of_mul_eq_mul_left (Nat.pos_of_ne_zero ht) h1
      exact hk h2.symm
    have e0 : npReshapeColsInfer [k, sr * t] (t * p)
        = some [([k, sr * t] : List ℕ).prod / (t * p), t * p] := by
      unfold npReshapeColsInfer
      rw [if_pos ⟨Nat.mul_ne_zero ht hp, hdvd⟩]
    simp only [stExpandShape, hmeth, htp, hspod, hS, hT, hP, npMatmulShape,
      npTransposeShape, e0, eq_self_iff_true, if_pos rfl, if_true,
      if_neg hne]
  · have e0 : npReshapeColsInfer [k, sr * t] (t * p) = none := by
      unfold npReshapeColsInfer
      exact if_neg (fun hcon => hdvd (And.right hcon))
    simp only [stExpandShape, hmeth, htp, hspod, hS, hT, hP, npMatmulShape,
      npTransposeShape, e0, eq_self_iff_true, if_pos rfl, if_true]

/-! ### Claim theorems: error handling and state -/

/-- C7: constructing a `SpaceTimePOD` with a strategy name outside
{tailored, kronecker, nested} raises a configuration error at construction
time whose message lists the valid strategy names (it is the literal
template applied to the comma-joined name list), and construction with any
name in that set succeeds. -/
theorem claimC7 :
    (∀ name opt, name ∈ stMethodNames → ∃ st, stInit name opt = .ok st)
  ∧ (∀ name opt, name ∉ stMethodNames → stInit name opt =
      .error ("Invalid method for POD. Please chose one among "
        ++ String.intercalate ", " stMethodNames))
  ∧ stMethodNames = ["tailored", "kronecker", "nested"] := by
  refine ⟨?_, ?_, rfl⟩
  · intro name opt h
    simp only [stMethodNames, List.mem_cons, List.mem_singleton,
      List.not_mem_nil, or_false] at h
    rcases h with h | h | h <;> subst h
    · exact ⟨stInitState .tailored opt, by simp [stInit, stMethodOfName]⟩
    · exact ⟨stInitState .kronecker opt, by simp [stInit, stMethodOfName]⟩
    · exact ⟨stInitState .nested opt, by simp [stInit, stMethodOfName]⟩

  · intro name opt h
    simp only [stMethodNames, List.mem_cons, List.mem_singleton,
      List.not_mem_nil, or_false, not_or] at h
    obtain ⟨h1, h2, h3⟩ := h
    simp [stInit, stMethodOfName, h1, h2, h3]

/-- Witness for C7 at the concrete names "tailored" and "bogus". -/
theorem claimC7_witness :
    ("tailored" ∈ stMethodNames ∧ "bogus" ∉ stMethodNames)
  ∧ ((∃ st, stInit "tailored" true = .ok st) ∧ stInit "bogus" true =
      .error ("Invalid method for POD. Please chose one among "
        ++ String.intercalate ", " stMethodNames)) :=
  ⟨⟨by decide, by decide⟩,
    ⟨claimC7.1 "tailored" true (by decide),
     claimC7.2.1 "bogus" true (by decide)⟩⟩

/-- C8: on a freshly constructed instance of any strategy, calling
`expand` fails (the `modes` property is `None`, or the retained temporal
POD is absent, so an exception is raised) rather than returning a value. -/
theorem claimC8 (m : STMethod) (opt : Bool) (x : List ℕ) :
    stExpandShape (stInitState m opt) x = none := by
  cases m <;> simp [stExpandShape, stInitState]

/-- C9: `expand` never mutates the fitted state: whenever it returns a
value, the post-call instance is the pre-call instance, so the combined
basis and the stored shape metadata (and every other field) are left
unchanged. -/
theorem claimC9 (st : STState) (x : List ℕ) (st2 : STState) (y : List ℕ)
    (h : stExpandShape st x = some (st2, y)) :
    st2 = st ∧ st2.modes = st.modes ∧ st2.spacePoints = st.spacePoints
      ∧ st2.timeInstants = st.timeInstants ∧ st2.ntrain = st.ntrain := by
  have hst : st2 = st := by
    unfold stExpandShape at h
    iterate 14 (all_goals (try split at h))
    all_goals simp_all
  exact ⟨hst, by rw [hst], by rw [hst], by rw [hst], by rw [hst]⟩

/-- Witness for C9: a concrete fitted kronecker-style state on which
`expand` succeeds and leaves the state unchanged. -/
theorem claimC9_witness :
    stExpandShape c9Fit [2, 3] = some (c9Fit, [2, 1, 3])
    ∧ (c9Fit = c9Fit ∧ c9Fit.modes = c9Fit.modes
        ∧ c9Fit.spacePoints = c9Fit.spacePoints
        ∧ c9Fit.timeInstants = c9Fit.timeInstants
        ∧ c9Fit.ntrain = c9Fit.ntrain) :=
  ⟨by decide, claimC9 c9Fit [2, 3] c9Fit [2, 1, 3] (by decide)⟩

/-! ### Claim theorems: shapes -/

/-- C2: for an input tensor of shape (T, S, P), `reduce` returns
coefficients of shape (n_modes, P) — with n_modes the combined-basis column
count (`tr*sr` for kronecker, `sr*tr` for tailored, `tr` for nested) — and
`expand` applied to that result returns shape (T, S, P); in particular, for
shape (100, 10, 5) with spatial rank 3 and temporal rank 4 under the
kronecker strategy, the combined basis has 12 columns, `reduce` returns a
(12, 5) matrix and `expand` of it returns shape (100, 10, 5). -/
theorem claimC2 (t s p sr tr : ℕ) (opt : Bool) (ht : t ≠ 0) (hs : s ≠ 0)
    (hp : p ≠ 0) (hsr : sr ≠ 0) :
    ((stReduceShape sr tr (stInitState .kronecker opt) [t, s, p]).bind
        (fun r => (stExpandShape r.1 r.2).map (fun e => (r.1.modes, r.2, e.2))))
      = some (some [t * s, tr * sr], [tr * sr, p], [t, s, p])
  ∧ ((stReduceShape sr tr (stInitState .tailored opt) [t, s, p]).bind
        (fun r => (stExpandShape r.1 r.2).map (fun e => (r.1.modes, r.2, e.2))))
      = some (some [t * s, sr * tr], [sr * tr, p], [t, s, p])
  ∧ ((stReduceShape sr tr (stInitState .nested opt) [t, s, p]).bind
        (fun r => (stExpandShape r.1 r.2).map (fun e => (r.2, e.2))))
      = some ([tr, p], [t, s, p])
  ∧ ((stReduceShape 3 4 (stInitState .kronecker true) [100, 10, 5]).bind
        (fun r => (stExpandShape r.1 r.2).map (fun e => (r.1.modes, r.2, e.2))))
      = some (some [1000, 12], [12, 5], [100, 10, 5]) := by
  refine ⟨?_, ?_, ?_, by decide⟩
  · rw [stReduceShape_kron t s p sr tr opt ht hs hp]
    simp only [Option.bind]
    rw [stExpandShape_kt s t (tr * sr) p _
      (fun hcon => STMethod.noConfusion hcon) rfl rfl rfl hs ht]
    rfl
  · rw [stReduceShape_tailored t s p sr tr opt ht hs hp hsr]
    simp only [Option.bind]
    rw [stExpandShape_kt s t (sr * tr) p _
      (fun hcon => STMethod.noConfusion hcon) rfl rfl rfl hs ht]
    rfl
  · rw [stReduceShape_nested t s p sr tr opt ht hs hp]
    simp only [Option.bind]
    rw [stExpandShape_nested_ok s t p sr tr _ rfl rfl rfl rfl rfl rfl
      (Nat.mul_ne_zero ht hp)]
    rfl

/-- Witness for C2 at (T, S, P) = (100, 10, 5), ranks (3, 4). -/
theorem claimC2_witness :
    ((100 : ℕ) ≠ 0 ∧ (10 : ℕ) ≠ 0 ∧ (5 : ℕ) ≠ 0 ∧ (3 : ℕ) ≠ 0)
    ∧ ((stReduceShape 3 4 (stInitState .kronecker true) [100, 10, 5]).bind
        (fun r => (stExpandShape r.1 r.2).map (fun e => (r.1.modes, r.2, e.2))))
      = some (some [100 * 10, 4 * 3], [4 * 3, 5], [100, 10, 5]) :=
  ⟨⟨by decide, by decide, by decide, by decide⟩,
    (claimC2 100 10 5 3 4 true (by decide) (by decide) (by decide) (by decide)).1⟩

/-- C6 (amended): on a fitted instance, the tailored and kronecker
strategies accept coefficient inputs of any batch width `k` (in particular
`1 ≤ k ≤ ntrain`), producing an output with parameter extent `k`; the
nested strategy accepts only `k = ntrain` (it reshapes with the stored
`time_instants * ntrain` and expands through the stored sub-PODs), and
raises for every other width, including the single-column query `k = 1`
when `ntrain > 1`. -/
theorem claimC6 (t s p sr tr k : ℕ) (opt : Bool) (ht : t ≠ 0) (hs : s ≠ 0)
    (hp : p ≠ 0) (hsr : sr ≠ 0) :
    (∀ st2 out, stReduceShape sr tr (stInitState .kronecker opt) [t, s, p]
        = some (st2, out) →
      stExpandShape st2 [tr * sr, k] = some (st2, [t, s, k]))
  ∧ (∀ st2 out, stReduceShape sr tr (stInitState .tailored opt) [t, s, p]
        = some (st2, out) →
      stExpandShape st2 [sr * tr, k] = some (st2, [t, s, k]))
  ∧ (∀ st2 out, stReduceShape sr tr (stInitState .nested opt) [t, s, p]
        = some (st2, out) →
      stExpandShape st2 [tr, p] = some (st2, [t, s, p]))
  ∧ (∀ st2 out, stReduceShape sr tr (stInitState .nested opt) [t, s, p]
        = some (st2, out) → k ≠ p →
      stExpandShape st2 [tr, k] = none) := by
  refine ⟨?_, ?_, ?_, ?_⟩
  · intro st2 out h
    rw [stReduceShape_kron t s p sr tr opt ht hs hp] at h
    obtain ⟨rfl, -⟩ := Prod.mk.injEq .. ▸ (Option.some.injEq .. ▸ h)
    exact stExpandShape_kt s t (tr * sr) k _
      (fun hcon => STMethod.noConfusion hcon) rfl rfl rfl hs ht
  · intro st2 out h
    rw [stReduceShape_tailored t s p sr tr opt ht hs hp hsr] at h
    obtain ⟨rfl, -⟩ := Prod.mk.injEq .. ▸ (Option.some.injEq .. ▸ h)
    exact stExpandShape_kt s t (sr * tr) k _
      (fun hcon => STMethod.noConfusion hcon) rfl rfl rfl hs ht
  · intro st2 out h
    rw [stReduceShape_nested t s p sr tr opt ht hs hp] at h
    obtain ⟨rfl, -⟩ := Prod.mk.injEq .. ▸ (Option.some.injEq .. ▸ h)
    exact stExpandShape_nested_ok s t p sr tr _ rfl rfl rfl rfl rfl rfl
      (Nat.mul_ne_zero ht hp)
  · intro st2 out h hk
    rw [stReduceShape_nested t s p sr tr opt ht hs hp] at h
    obtain ⟨rfl, -⟩ := Prod.mk.injEq .. ▸ (Option.some.injEq .. ▸ h)
    exact stExpandShape_nested_fail s t p sr tr k _ rfl rfl rfl rfl rfl rfl
      hk hsr ht hp

/-- Counterexample for C6 as stated: a nested-strategy instance fitted on
a (2, 1, 2) tensor (so ntrain = 2) returns coefficients with 2 columns,
yet `expand` on a single-column input (k = 1, within 1 ≤ k ≤ ntrain)
raises instead of producing a 1-parameter reconstruction. -/
theorem claimC6_counterexample :
    (match stReduceShape 1 2 (stInitState .nested true) [2, 1, 2] with
      | some r => stExpandShape r.1 [2, 1]
      | none => some (stInitState .nested true, []))
      = none
  ∧ (stReduceShape 1 2 (stInitState .nested true) [2, 1, 2]).map (fun r => r.2)
      = some [2, 2] := by
  exact ⟨by decide, by decide⟩

/-- Witness for C6 at (T, S, P) = (2, 1, 2), ranks (1, 2), k = 2. -/
theorem claimC6_witness :
    ((2 : ℕ) ≠ 0 ∧ (1 : ℕ) ≠ 0 ∧ (2 : ℕ) ≠ 0 ∧ (1 : ℕ) ≠ 0)
    ∧ (∀ st2 out, stReduceShape 1 2 (stInitState .nested true) [2, 1, 2]
        = some (st2, out) →
      stExpandShape st2 [2, 2] = some (st2, [2, 1, 2])) :=
  ⟨⟨by decide, by decide, by decide, by decide⟩,
    (claimC6 2 1 2 1 2 2 true (by decide) (by decide) (by decide)
      (by decide)).2.2.1⟩

/-- If a kronecker-strategy instance already holds a cached least-squares
operator, a (second) `reduce` run reuses it: the cache field is left
exactly as it was, mirroring the `if self._modes_product_inv is None`
guard. -/
theorem stReduceShape_cached_kron (sr tr t s p : ℕ) (st0 : STState)
    (Z : List ℕ) (hm : st0.method = .kronecker)
    (hopt : st0.optimalModalCoefficients = true)
    (hz : st0.modesProductInv = some Z) (st2 : STState) (out : List ℕ)
    (h : stReduceShape sr tr st0 [t, s, p] = some (st2, out)) :
    st2.modesProductInv = some Z := by
  unfold stReduceShape stCoeffsShape at h
  simp only [hm, hopt, hz, if_true] at h
  iterate 12 (all_goals (try split at h))
  all_goals first
  | (obtain ⟨rfl, -⟩ := h; rfl)
  | simp_all

/-! ### Claim theorem: coefficient computation and caching (C4) -/

/-- C4: for the kronecker and tailored strategies, `reduce` flattens the
space-major tensor into the (space·time) × ntrain matrix `X3` (row
`s + S*t`, column `p` holds `X[t, s, p]`), and returns
`inv(modesᵀ modes) @ modesᵀ @ X3` when `optimal_modal_coefficients` is
true, and `pinv(modes) @ X3` when it is false; the chosen inverse operator
is computed once, stored on the instance (the other cache stays empty),
and an already-cached operator is reused rather than recomputed. -/
theorem claimC4 :
    (∀ (T S P a b : ℕ) (sOr : Mat S (T * P) → Mat S a)
        (tOr : Mat T (S * P) → Mat T b)
        (npinv : Mat (T * S) (b * a) → Mat (b * a) (T * S)) (X : Tensor3 T S P),
      stReduceCoeffs (stKronFitModes sOr tOr X) true npinv X
        = matInvE ((stKronFitModes sOr tOr X)ᵀ * stKronFitModes sOr tOr X)
            * (stKronFitModes sOr tOr X)ᵀ * stX3 X
      ∧ stReduceCoeffs (stKronFitModes sOr tOr X) false npinv X
        = npinv (stKronFitModes sOr tOr X) * stX3 X)
  ∧ (∀ (T S P a r : ℕ) (sOr : Mat S (T * P) → Mat S a)
        (tOr : Mat T P → Mat T r)
        (npinv : Mat (T * S) (a * r) → Mat (a * r) (T * S)) (X : Tensor3 T S P),
      stReduceCoeffs (stTailoredFitModes sOr tOr X) true npinv X
        = matInvE ((stTailoredFitModes sOr tOr X)ᵀ * stTailoredFitModes sOr tOr X)
            * (stTailoredFitModes sOr tOr X)ᵀ * stX3 X
      ∧ stReduceCoeffs (stTailoredFitModes sOr tOr X) false npinv X
        = npinv (stTailoredFitModes sOr tOr X) * stX3 X)
  ∧ (∀ (T S P : ℕ) (X : Tensor3 T S P) (t : Fin T) (s : Fin S) (p : Fin P),
      stX3 X (finPairR t s) p = X t s p)
  ∧ (∀ (t s p sr tr : ℕ) (opt : Bool), t ≠ 0 → s ≠ 0 → p ≠ 0 →
      ∀ st2 out, stReduceShape sr tr (stInitState .kronecker opt) [t, s, p]
          = some (st2, out) →
        st2.modesProductInv = (if opt then some [tr * sr, t * s] else none)
        ∧ st2.modesInv = (if opt then none else some [tr * sr, t * s]))
  ∧ (∀ (t s p sr tr : ℕ) (opt : Bool), t ≠ 0 → s ≠ 0 → p ≠ 0 → sr ≠ 0 →
      ∀ st2 out, stReduceShape sr tr (stInitState .tailored opt) [t, s, p]
          = some (st2, out) →
        st2.modesProductInv = (if opt then some [sr * tr, t * s] else none)
        ∧ st2.modesInv = (if opt then none else some [sr * tr, t * s]))
  ∧ (∀ (sr tr t s p : ℕ) (st0 : STState) (Z : List ℕ),
      st0.method = .kronecker → st0.optimalModalCoefficients = true →
      st0.modesProductInv = some Z →
      ∀ st2 out, stReduceShape sr tr st0 [t, s, p] = some (st2, out) →
        st2.modesProductInv = some Z) := by
  refine ⟨?_, ?_, ?_, ?_, ?_, ?_⟩
  · intro T S P a b sOr tOr npinv X
    exact ⟨by simp [stReduceCoeffs], by simp [stReduceCoeffs]⟩
  · intro T S P a r sOr tOr npinv X
    exact ⟨by simp [stReduceCoeffs], by simp [stReduceCoeffs]⟩
  · intro T S P X t s p
    rw [stX3, finQuot_finPairR, finRem_finPairR]
  · intro t s p sr tr opt ht hs hp st2 out h
    rw [stReduceShape_kron t s p sr tr opt ht hs hp] at h
    obtain ⟨rfl, -⟩ := Prod.mk.injEq .. ▸ (Option.some.injEq .. ▸ h)
    exact ⟨rfl, rfl⟩
  · intro t s p sr tr opt ht hs hp hsr st2 out h
    rw [stReduceShape_tailored t s p sr tr opt ht hs hp hsr] at h
    obtain ⟨rfl, -⟩ := Prod.mk.injEq .. ▸ (Option.some.injEq .. ▸ h)
    exact ⟨rfl, rfl⟩
  · intro sr tr t s p st0 Z hm hopt hz st2 out h
    exact stReduceShape_cached_kron sr tr t s p st0 Z hm hopt hz st2 out h

/-- Witness for C4 (caching conjunct) at a concrete kronecker fit. -/
theorem claimC4_witness :
    ((2 : ℕ) ≠ 0 ∧ (1 : ℕ) ≠ 0 ∧ (2 : ℕ) ≠ 0
      ∧ stReduceShape 1 1 (stInitState .kronecker true) [2, 1, 2]
          = some (c4Fit, [1, 2]))
    ∧ (c4Fit.modesProductInv = (if true then some [1 * 1, 2 * 1] else none)
      ∧ c4Fit.modesInv = (if true then none else some [1 * 1, 2 * 1])) :=
  ⟨⟨by decide, by decide, by decide, by decide⟩,
    claimC4.2.2.2.1 2 1 2 1 1 true (by decide) (by decide) (by decide)
      c4Fit [1, 2] (by decide)⟩

/-! ### Claim theorems: value-level model -/

/-- C1 (failing run): with the nested strategy, even exact full-rank
sub-PODs (orthonormal modes spanning the respective column spaces, so each
sub-POD round trip is exact) do not make `expand (reduce X)` reproduce `X`:
on the (2, 1, 2) tensor `[[[1, 2]], [[3, 4]]]` the reconstruction swaps the
time-1/parameter-0 and time-0/parameter-1 entries, because `expand`
transposes before each Fortran-order reshape.  The round-trip error is of
order one, not the claimed 1e-10 relative tolerance. -/
theorem claimC1 :
    FullRankPOD cbU1 (stX1 cbX)
  ∧ FullRankPOD cbU2 (nestedCoeffstimeMu cbU1 cbX)
  ∧ nestedExpand cbU1 cbU2 (nestedReduce cbU1 cbU2 cbX) ≠ cbX
  ∧ nestedExpand cbU1 cbU2 (nestedReduce cbU1 cbU2 cbX) 1 0 0 = 2
  ∧ cbX 1 0 0 = 3 := by
  refine ⟨⟨?_, ?_⟩, ⟨?_, ?_⟩, ?_, ?_, by norm_num [cbX]⟩
  · ext i j
    fin_cases i <;> fin_cases j <;>
      simp [cbU1, Matrix.mul_apply, Fin.sum_univ_succ, Matrix.one_apply]
  · ext i j
    fin_cases i <;> fin_cases j <;>
      simp [cbU1, Matrix.mul_apply, Fin.sum_univ_succ, Matrix.one_apply]
  · ext i j
    fin_cases i <;> fin_cases j <;>
      simp [cbU2, Matrix.mul_apply, Fin.sum_univ_succ, Matrix.one_apply]
  · ext i j
    fin_cases i <;> fin_cases j <;>
      simp [cbU2, nestedCoeffstimeMu, nestedSpatialCoeffs, reshapeF,
        podReduce, stX1, finLo, finHi, finPair, Fin.coe_cast, cbU1, cbX,
        Matrix.mul_apply, Matrix.transpose_apply, Fin.sum_univ_succ,
        Matrix.one_apply, Fin.ext_iff] <;>
      norm_num [show ((3 : Fin (2 * 2)) : ℕ) = 3 from rfl]
  · intro h
    have hc := congrFun (congrFun (congrFun h 1) 0) 0
    simp [nestedExpand, nestedReduce, nestedCoeffstimeMu, nestedSpatialCoeffs,
      nestedIntermediate, reshapeSwapTo3, reshapeF, podExpand, podReduce,
      stX1, finLo, finHi, finPair, Fin.coe_cast, cbU1, cbU2, cbX,
      Matrix.mul_apply, Matrix.transpose_apply, Fin.sum_univ_succ,
      Matrix.one_apply] at hc
  · simp [nestedExpand, nestedReduce, nestedCoeffstimeMu, nestedSpatialCoeffs,
      nestedIntermediate, reshapeSwapTo3, reshapeF, podExpand, podReduce,
      stX1, finLo, finHi, finPair, Fin.coe_cast, cbU1, cbU2, cbX,
      Matrix.mul_apply, Matrix.transpose_apply, Fin.sum_univ_succ,
      Matrix.one_apply]

/-- C3: under the kronecker strategy the combined basis is
`np.kron(Psi, Phi)` with `Phi` the spatial modes of the space-major
Fortran-flattened `X1` (entry `(s, t + T*p)` is `X[t, s, p]`) and `Psi`
the temporal modes of the time-major Fortran-flattened `X2` (entry
`(t, s + S*p)` is `X[t, s, p]`); the basis entry at row `s + S*t` and
column `u + a*j` is `Psi[t, j] * Phi[s, u]`. -/
theorem claimC3 (T S P a b : ℕ) (sOr : Mat S (T * P) → Mat S a)
    (tOr : Mat T (S * P) → Mat T b) (X : Tensor3 T S P)
    (s : Fin S) (t : Fin T) (p : Fin P) (u : Fin a) (j : Fin b) :
    stX1 X s (finPair t p) = X t s p
  ∧ stX2 X t (finPair s p) = X t s p
  ∧ stKronFitModes sOr tOr X = stKronModes (sOr (stX1 X)) (tOr (stX2 X))
  ∧ stKronFitModes sOr tOr X (finPairR t s) (finPairR j u)
      = tOr (stX2 X) t j * sOr (stX1 X) s u := by
  refine ⟨?_, ?_, rfl, ?_⟩
  · simp only [stX1, finLo_finPair, finHi_finPair]
  · simp only [stX2, finLo_finPair, finHi_finPair]
  · simp only [stKronFitModes, stKronModes, npKron, finQuot_finPairR,
      finRem_finPairR]

/-- Counterexample for C5 as stated: in the nested `expand`, the matrix
obtained by transposing the temporal reconstruction and Fortran-reshaping
it to `(-1, time_instants * ntrain)` is NOT the original
spatial-coefficient layout: on `[[[5, 6]], [[7, 8]]]` with exact full-rank
sub-PODs the temporal stage reconstructs its input exactly, yet the
intermediate differs from `spatial_modal_coeffs`, so the two stages are
not inverted. -/
theorem claimC5_counterexample :
    FullRankPOD c5U1 (stX1 c5X)
  ∧ FullRankPOD c5U2 (nestedCoeffstimeMu c5U1 c5X)
  ∧ podExpand c5U2 (nestedReduce c5U1 c5U2 c5X) = nestedCoeffstimeMu c5U1 c5X
  ∧ nestedIntermediate c5U2 (nestedReduce c5U1 c5U2 c5X)
      ≠ nestedSpatialCoeffs c5U1 c5X := by
  refine ⟨⟨?_, ?_⟩, ⟨?_, ?_⟩, ?_, ?_⟩
  · ext i j
    fin_cases i <;> fin_cases j <;>
      simp [c5U1, Matrix.mul_apply, Fin.sum_univ_succ, Matrix.one_apply]
  · ext i j
    fin_cases i <;> fin_cases j <;>
      simp [c5U1, Matrix.mul_apply, Fin.sum_univ_succ, Matrix.one_apply]
  · ext i j
    fin_cases i <;> fin_cases j <;>
      simp [c5U2, Matrix.mul_apply, Fin.sum_univ_succ, Matrix.one_apply]
  · ext i j
    fin_cases i <;> fin_cases j <;>
      simp [c5U2, nestedCoeffstimeMu, nestedSpatialCoeffs, reshapeF,
        podReduce, stX1, finLo, finHi, finPair, Fin.coe_cast, c5U1, c5X,
        Matrix.mul_apply, Matrix.transpose_apply, Fin.sum_univ_succ,
        Matrix.one_apply, Fin.ext_iff] <;>
      norm_num [show ((3 : Fin (2 * 2)) : ℕ) = 3 from rfl]
  · ext i j
    fin_cases i <;> fin_cases j <;>
      simp [c5U2, podExpand, podReduce, nestedReduce, nestedCoeffstimeMu,
        nestedSpatialCoeffs, reshapeF, stX1, finLo, finHi, finPair,
        Fin.coe_cast, c5U1, c5X, Matrix.mul_apply, Matrix.transpose_apply,
        Fin.sum_univ_succ, Matrix.one_apply, Fin.ext_iff] <;>
      norm_num [show ((3 : Fin (2 * 2)) : ℕ) = 3 from rfl]
  · intro h
    have hc := congrFun (congrFun h 0) 1
    simp [c5U2, nestedIntermediate, nestedReduce, nestedCoeffstimeMu,
      nestedSpatialCoeffs, reshapeF, podExpand, podReduce, stX1, finLo,
      finHi, finPair, Fin.coe_cast, c5U1, c5X, Matrix.mul_apply,
      Matrix.transpose_apply, Fin.sum_univ_succ, Matrix.one_apply] at hc

/-- C5 (amended): the nested `reduce` is exactly the second-stage temporal
POD reduce of the Fortran-order regrouping of the first-stage spatial
coefficients (entry `(α + a*t, p)` of the regrouped matrix is entry
`(α, t + T*p)` of the coefficients), with no combined basis and no inverse
operator computed; `expand` applies the stages in reverse order — temporal
expand, then a TRANSPOSE followed by a Fortran reshape to an
`n_spatial_modes × (time · ntrain)` matrix (the transpose makes this
differ from the original spatial-coefficient layout in general, see the
counterexample), then spatial expand, then a transpose and
Fortran-reshape/axis-swap to the public (time, space, parameter)
convention. -/
theorem claimC5 :
    (∀ (T S P a : ℕ) (U1 : Mat S a) (X : Tensor3 T S P)
        (al : Fin a) (t : Fin T) (p : Fin P),
      nestedCoeffstimeMu U1 X (finPair al t) p
        = nestedSpatialCoeffs U1 X al (finPair t p))
  ∧ (∀ (T S P a c : ℕ) (U1 : Mat S a) (U2 : Mat (a * T) c) (X : Tensor3 T S P),
      nestedReduce U1 U2 X = podReduce U2 (nestedCoeffstimeMu U1 X))
  ∧ (∀ (T S P a c : ℕ) (U1 : Mat S a) (U2 : Mat (a * T) c) (C : Mat c P),
      nestedExpand U1 U2 C = reshapeSwapTo3 (by ring)
        ((podExpand U1 (nestedIntermediate U2 C))ᵀ : Mat (T * P) S))
  ∧ (∀ (t s p sr tr : ℕ) (opt : Bool), t ≠ 0 → s ≠ 0 → p ≠ 0 →
      ∀ st2 out, stReduceShape sr tr (stInitState .nested opt) [t, s, p]
          = some (st2, out) →
        st2.modes = none ∧ st2.modesProductInv = none ∧ st2.modesInv = none
          ∧ out = [tr, p]) := by
  refine ⟨?_, fun T S P a c U1 U2 X => rfl, fun T S P a c U1 U2 C => rfl, ?_⟩
  · intro T S P a U1 X al t p
    show nestedSpatialCoeffs U1 X _ _ = nestedSpatialCoeffs U1 X al (finPair t p)
    have hval : ((finPair al t : Fin (a * T)).val + (a * T) * p.val)
        = al.val + a * ((finPair t p : Fin (T * P)).val) := by
      show (al.val + a * t.val) + (a * T) * p.val
        = al.val + a * (t.val + T * p.val)
      ring
    have h1 : finLo (Fin.cast (by ring : a * (T * P) = (a * T) * P).symm
        (finPair (finPair al t) p)) = al := by
      apply Fin.ext
      show ((finPair al t : Fin (a * T)).val + (a * T) * p.val) % a = al.val
      rw [hval, Nat.add_mul_mod_self_left, Nat.mod_eq_of_lt al.2]
    have h2 : finHi (Fin.cast (by ring : a * (T * P) = (a * T) * P).symm
        (finPair (finPair al t) p)) = finPair t p := by
      apply Fin.ext
      show ((finPair al t : Fin (a * T)).val + (a * T) * p.val) / a
        = (finPair t p : Fin (T * P)).val
      rw [hval, Nat.add_mul_div_left _ _ (by have := al.2; omega),
        Nat.div_eq_of_lt al.2, Nat.zero_add]
    rw [h1, h2]
  · intro t s p sr tr opt ht hs hp st2 out h
    rw [stReduceShape_nested t s p sr tr opt ht hs hp] at h
    obtain ⟨rfl, rfl⟩ := Prod.mk.injEq .. ▸ (Option.some.injEq .. ▸ h)
    exact ⟨rfl, rfl, rfl, rfl⟩

/-- Witness for C5 (the shape/state conjunct) at a concrete nested fit. -/
theorem claimC5_witness :
    ((2 : ℕ) ≠ 0 ∧ (1 : ℕ) ≠ 0 ∧ (2 : ℕ) ≠ 0
      ∧ (stReduceShape 1 2 (stInitState .nested true) [2, 1, 2]).map
          (fun r => (r.1.modes, r.1.modesProductInv, r.1.modesInv, r.2))
        = some (none, none, none, [2, 2]))
    ∧ ∀ st2 out, stReduceShape 1 2 (stInitState .nested true) [2, 1, 2]
        = some (st2, out) →
      st2.modes = none ∧ st2.modesProductInv = none ∧ st2.modesInv = none
        ∧ out = [2, 2] :=
  ⟨⟨by decide, by decide, by decide, by decide⟩,
    claimC5.2.2.2 2 1 2 1 2 true (by decide) (by decide) (by decide)⟩

/-! ### Claim theorems: the snapshot database (C10) -/

/-- Counterexample for C10 as stated: a second `add` whose arguments pass
all three validation checks (3-D array, first axis matching
`len(parameters)`, third axis matching `len(time_instants)`) still raises,
because `np.vstack` rejects the incompatible interior dimensions — and it
raises only after `self._parameters` has already been reassigned, so the
claimed dichotomy (listed `ValueError`s with state unchanged, otherwise
data stored and the database returned) is false. -/
theorem claimC10_counterexample :
    (stdbAdd stdbEmpty c10P1 c10T1 c10S1).2 = none
  ∧ c10S2.shape.length = 3
  ∧ c10S2.shape.headD 0 = ndLen c10P2
  ∧ c10S2.shape.getD 2 0 = ndLen c10T2
  ∧ (stdbAdd (stdbAdd stdbEmpty c10P1 c10T1 c10S1).1 c10P2 c10T2 c10S2).2
      ≠ none
  ∧ (stdbAdd (stdbAdd stdbEmpty c10P1 c10T1 c10S1).1 c10P2 c10T2 c10S2).1.parameters
      ≠ (stdbAdd stdbEmpty c10P1 c10T1 c10S1).1.parameters := by
  refine ⟨by decide, by decide, by decide, by decide, by decide, by decide⟩

/-- C10 (amended): `add` raises a ValueError and leaves the stored data
unchanged when the snapshots are not 3-D, or when the first axis is not
`len(parameters)`, or when the third axis is not `len(time_instants)`.
Otherwise, on an empty database (the constructor case) the three arguments
are stored and the database is returned; on a non-empty database whose
stored arrays are stack-compatible with the new ones, parameters and
snapshots are appended while the stored time instants are left unchanged,
and the database is returned. -/
theorem claimC10 :
    (∀ (db : STDb) (pa ti sn : NDArr), sn.shape.length ≠ 3 →
      stdbAdd db pa ti sn
        = (db, some "ValueError: The provided snapshot must be a 3D nparray"))
  ∧ (∀ (db : STDb) (pa ti sn : NDArr), sn.shape.length = 3 →
      (sn.shape.headD 0 ≠ ndLen pa ∨ sn.shape.getD 2 0 ≠ ndLen ti) →
      stdbAdd db pa ti sn = (db, some "ValueError: Dimensions do not agree"))
  ∧ (∀ (pa ti sn : NDArr), sn.shape.length = 3 →
      sn.shape.headD 0 = ndLen pa → sn.shape.getD 2 0 = ndLen ti →
      stdbAdd stdbEmpty pa ti sn = (⟨some pa, some ti, some sn⟩, none))
  ∧ (∀ (db : STDb) (pa ti sn p0 s0 p1 s1 : NDArr),
      db.parameters = some p0 → db.snapshots = some s0 →
      sn.shape.length = 3 → sn.shape.headD 0 = ndLen pa →
      sn.shape.getD 2 0 = ndLen ti →
      npVstack2 p0 pa = some p1 → npVstack3 s0 sn = some s1 →
      stdbAdd db pa ti sn
        = ({ db with parameters := some p1, snapshots := some s1 }, none)) := by
  refine ⟨?_, ?_, ?_, ?_⟩
  · intro db pa ti sn h
    unfold stdbAdd
    rw [if_pos h]
  · intro db pa ti sn h3 hd
    unfold stdbAdd
    rw [if_neg (by simp [h3]), if_pos hd]
  · intro pa ti sn h3 h1 h2
    unfold stdbAdd
    rw [if_neg (by simp [h3]), if_neg (by push_neg; exact ⟨h1, h2⟩)]
    rfl
  · intro db pa ti sn p0 s0 p1 s1 hp0 hs0 h3 h1 h2 hv2 hv3
    obtain ⟨dbp, dbt, dbs⟩ := db
    simp only [STDb.parameters] at hp0
    simp only [STDb.snapshots] at hs0
    subst hp0
    subst hs0
    unfold stdbAdd
    rw [if_neg (by simp [h3]), if_neg (by push_neg; exact ⟨h1, h2⟩)]
    simp only [hv2, hv3]

/-- Witness for C10 (the empty-database success conjunct) at concrete
arrays. -/
theorem claimC10_witness :
    (c10S1.shape.length = 3 ∧ c10S1.shape.headD 0 = ndLen c10P1
      ∧ c10S1.shape.getD 2 0 = ndLen c10T1)
    ∧ stdbAdd stdbEmpty c10P1 c10T1 c10S1
        = (⟨some c10P1, some c10T1, some c10S1⟩, none) :=
  ⟨⟨by decide, by decide, by decide⟩,
    claimC10.2.2.1 c10P1 c10T1 c10S1 (by decide) (by decide) (by decide)⟩

/-! ### Kronecker-product algebra for the linear-index model -/

theorem finPairR_quot_rem {m p : ℕ} (i : Fin (m * p)) :
    finPairR (finQuot i) (finRem i) = i := (finPairREquiv m p).right_inv i

theorem sum_finPairR {m p : ℕ} (f : Fin (m * p) → ℚ) :
    ∑ r, f r = ∑ hi : Fin m, ∑ lo : Fin p, f (finPairR hi lo) := by
  calc ∑ r, f r = ∑ x : Fin m × Fin p, f (finPairREquiv m p x) :=
        (Equiv.sum_comp (finPairREquiv m p) f).symm
    _ = ∑ hi : Fin m, ∑ lo : Fin p, f (finPairR hi lo) := by
        rw [Fintype.sum_prod_type]
        rfl

theorem npKron_transpose {m n p q : ℕ} (A : Mat m n) (B : Mat p q) :
    (npKron A B)ᵀ = npKron Aᵀ Bᵀ := rfl

theorem npKron_mul {m n p q n2 q2 : ℕ} (A : Mat m n) (B : Mat p q)
    (C : Mat n n2) (D : Mat q q2) :
    npKron A B * npKron C D = npKron (A * C) (B * D) := by
  ext r c
  rw [Matrix.mul_apply, npKron, sum_finPairR]
  show ∑ j : Fin n, ∑ u : Fin q,
      npKron A B r (finPairR j u) * npKron C D (finPairR j u) c = _
  have hstep : ∀ (j : Fin n) (u : Fin q),
      npKron A B r (finPairR j u) * npKron C D (finPairR j u) c
        = (A (finQuot r) j * C j (finQuot c))
            * (B (finRem r) u * D u (finRem c)) := by
    intro j u
    rw [npKron, npKron, finQuot_finPairR, finRem_finPairR]
    ring
  calc ∑ j : Fin n, ∑ u : Fin q,
        npKron A B r (finPairR j u) * npKron C D (finPairR j u) c
      = ∑ j : Fin n, ∑ u : Fin q, (A (finQuot r) j * C j (finQuot c))
          * (B (finRem r) u * D u (finRem c)) := by
        refine Finset.sum_congr rfl (fun j _ => ?_)
        exact Finset.sum_congr rfl (fun u _ => hstep j u)
    _ = (∑ j : Fin n, A (finQuot r) j * C j (finQuot c))
          * (∑ u : Fin q, B (finRem r) u * D u (finRem c)) := by
        rw [Finset.sum_mul_sum]
    _ = npKron (A * C) (B * D) r c := by
        rw [npKron, Matrix.mul_apply, Matrix.mul_apply]

theorem npKron_one {m p : ℕ} :
    npKron (1 : Mat m m) (1 : Mat p p) = (1 : Mat (m * p) (m * p)) := by
  ext r c
  rw [npKron]
  by_cases h : r = c
  · subst h
    simp [Matrix.one_apply]
  · have h2 : finQuot r ≠ finQuot c ∨ finRem r ≠ finRem c := by
      by_contra hcon
      push_neg at hcon
      exact h (by rw [← finPairR_quot_rem r, ← finPairR_quot_rem c,
        hcon.1, hcon.2])
    rcases h2 with h2 | h2 <;>
      simp [Matrix.one_apply, h2, Matrix.one_apply_ne, h]

theorem stX1_pair {T S P : ℕ} (X : Tensor3 T S P) (s : Fin S) (t : Fin T)
    (p : Fin P) : stX1 X s (finPair t p) = X t s p := by
  simp only [stX1, finLo_finPair, finHi_finPair]

theorem stX2_pair {T S P : ℕ} (X : Tensor3 T S P) (t : Fin T) (s : Fin S)
    (p : Fin P) : stX2 X t (finPair s p) = X t s p := by
  simp only [stX2, finLo_finPair, finHi_finPair]

theorem stX3_pairR {T S P : ℕ} (X : Tensor3 T S P) (t : Fin T) (s : Fin S)
    (p : Fin P) : stX3 X (finPairR t s) p = X t s p := by
  simp only [stX3, finQuot_finPairR, finRem_finPairR]

/-- At full rank (exact arithmetic), the kronecker-strategy round trip is
exact: the combined basis has orthonormal columns, the least-squares
operator reduces to `modesᵀ`, and `expand (reduce X) = X`.  This is the
behaviour the round-trip claim expects, and the kronecker path delivers
it — in contrast with the nested path, see the failing run. -/
theorem kronRoundTripExact {T S P a b : ℕ} (X : Tensor3 T S P)
    (Phi : Mat S a) (Psi : Mat T b)
    (hPhi : FullRankPOD Phi (stX1 X)) (hPsi : FullRankPOD Psi (stX2 X))
    (npinv : Mat (T * S) (b * a) → Mat (b * a) (T * S)) :
    stExpandKT (stKronModes Phi Psi)
      (stReduceCoeffs (stKronModes Phi Psi) true npinv X) = X := by
  obtain ⟨hPhi1, hPhi2⟩ := hPhi
  obtain ⟨hPsi1, hPsi2⟩ := hPsi
  have hMtM : (stKronModes Phi Psi)ᵀ * stKronModes Phi Psi = 1 := by
    rw [stKronModes, npKron_transpose, npKron_mul, hPsi1, hPhi1, npKron_one]
  have hinv : matInvE ((stKronModes Phi Psi)ᵀ * stKronModes Phi Psi) = 1 := by
    rw [hMtM, matInvE, Matrix.det_one, Matrix.adjugate_one, inv_one, one_smul]
  have hred : stReduceCoeffs (stKronModes Phi Psi) true npinv X
      = (stKronModes Phi Psi)ᵀ * stX3 X := by
    simp only [stReduceCoeffs, if_true, hinv, Matrix.one_mul]
  have hQQ1 : Phi * Phiᵀ * stX1 X = stX1 X := by
    rw [Matrix.mul_assoc, hPhi2]
  have hPP1 : Psi * Psiᵀ * stX2 X = stX2 X := by
    rw [Matrix.mul_assoc, hPsi2]
  funext t s p
  rw [stExpandKT, hred, ← Matrix.mul_assoc]
  have hMMt : stKronModes Phi Psi * (stKronModes Phi Psi)ᵀ
      = npKron (Psi * Psiᵀ) (Phi * Phiᵀ) := by
    rw [stKronModes, npKron_transpose, npKron_mul]
  rw [hMMt]
  have hQ : ∀ t2 : Fin T,
      (∑ s2 : Fin S, (Phi * Phiᵀ) s s2 * X t2 s2 p) = X t2 s p := by
    intro t2
    calc ∑ s2 : Fin S, (Phi * Phiᵀ) s s2 * X t2 s2 p
        = ∑ s2 : Fin S, (Phi * Phiᵀ) s s2 * stX1 X s2 (finPair t2 p) := by
          refine Finset.sum_congr rfl (fun s2 _ => ?_)
          rw [stX1_pair]
      _ = (Phi * Phiᵀ * stX1 X) s (finPair t2 p) := (Matrix.mul_apply).symm
      _ = stX1 X s (finPair t2 p) := by rw [hQQ1]
      _ = X t2 s p := stX1_pair X s t2 p
  calc (npKron (Psi * Psiᵀ) (Phi * Phiᵀ) * stX3 X) (finPairR t s) p
      = ∑ r2, npKron (Psi * Psiᵀ) (Phi * Phiᵀ) (finPairR t s) r2
          * stX3 X r2 p := Matrix.mul_apply
    _ = ∑ t2 : Fin T, ∑ s2 : Fin S,
          npKron (Psi * Psiᵀ) (Phi * Phiᵀ) (finPairR t s) (finPairR t2 s2)
            * stX3 X (finPairR t2 s2) p := sum_finPairR _
    _ = ∑ t2 : Fin T, ∑ s2 : Fin S,
          (Psi * Psiᵀ) t t2 * ((Phi * Phiᵀ) s s2 * X t2 s2 p) := by
        refine Finset.sum_congr rfl (fun t2 _ => ?_)
        refine Finset.sum_congr rfl (fun s2 _ => ?_)
        rw [npKron, finQuot_finPairR, finRem_finPairR, finQuot_finPairR,
          finRem_finPairR, stX3_pairR]
        ring
    _ = ∑ t2 : Fin T, (Psi * Psiᵀ) t t2
          * (∑ s2 : Fin S, (Phi * Phiᵀ) s s2 * X t2 s2 p) := by
        refine Finset.sum_congr rfl (fun t2 _ => ?_)
        rw [Finset.mul_sum]
    _ = ∑ t2 : Fin T, (Psi * Psiᵀ) t t2 * X t2 s p := by
        refine Finset.sum_congr rfl (fun t2 _ => ?_)
        rw [hQ t2]
    _ = ∑ t2 : Fin T, (Psi * Psiᵀ) t t2 * stX2 X t2 (finPair s p) := by
        refine Finset.sum_congr rfl (fun t2 _ => ?_)
        rw [stX2_pair]
    _ = (Psi * Psiᵀ * stX2 X) t (finPair s p) := (Matrix.mul_apply).symm
    _ = stX2 X t (finPair s p) := by rw [hPP1]
    _ = X t s p := stX2_pair X t s p

theorem phiProj_entry {T S P a : ℕ} (X : Tensor3 T S P) (Phi : Mat S a)
    (hPhi2 : Phi * (Phiᵀ * stX1 X) = stX1 X) (s : Fin S) (t2 : Fin T)
    (p : Fin P) :
    (∑ s2 : Fin S, (Phi * Phiᵀ) s s2 * X t2 s2 p) = X t2 s p := by
  have hQQ1 : Phi * Phiᵀ * stX1 X = stX1 X := by
    rw [Matrix.mul_assoc, hPhi2]
  calc ∑ s2 : Fin S, (Phi * Phiᵀ) s s2 * X t2 s2 p
      = ∑ s2 : Fin S, (Phi * Phiᵀ) s s2 * stX1 X s2 (finPair t2 p) := by
        refine Finset.sum_congr rfl (fun s2 _ => ?_)
        rw [stX1_pair]
    _ = (Phi * Phiᵀ * stX1 X) s (finPair t2 p) := (Matrix.mul_apply).symm
    _ = stX1 X s (finPair t2 p) := by rw [hQQ1]
    _ = X t2 s p := stX1_pair X s t2 p

/-- The modal coefficients of the tailored fit, columnwise: row `i*r + j`
of `modesᵀ @ X3` is row `j` of `(tailored_Psi_i)ᵀ @ (X2 @ Phi_i)`. -/
theorem tailoredReduce_entry {T S P a r : ℕ} (X : Tensor3 T S P)
    (Phi : Mat S a) (Psi : Fin a → Mat T r) (c : Fin (a * r)) (p : Fin P) :
    ((stTailoredModes Phi Psi)ᵀ * stX3 X) c p
      = ((Psi (finQuot c))ᵀ
          * stX2Phi X (fun s2 => Phi s2 (finQuot c))) (finRem c) p := by
  rw [Matrix.mul_apply]
  calc ∑ r2, (stTailoredModes Phi Psi)ᵀ c r2 * stX3 X r2 p
      = ∑ t2 : Fin T, ∑ s2 : Fin S, (stTailoredModes Phi Psi)ᵀ c
          (finPairR t2 s2) * stX3 X (finPairR t2 s2) p := sum_finPairR _
    _ = ∑ t2 : Fin T, Psi (finQuot c) t2 (finRem c)
          * (∑ s2 : Fin S, Phi s2 (finQuot c) * X t2 s2 p) := by
        refine Finset.sum_congr rfl (fun t2 _ => ?_)
        rw [Finset.mul_sum]
        refine Finset.sum_congr rfl (fun s2 _ => ?_)
        rw [Matrix.transpose_apply, stTailoredModes, finQuot_finPairR,
          finRem_finPairR, stX3_pairR]
        ring
    _ = ∑ t2 : Fin T, Psi (finQuot c) t2 (finRem c)
          * stX2Phi X (fun s2 => Phi s2 (finQuot c)) t2 p := by
        refine Finset.sum_congr rfl (fun t2 _ => ?_)
        congr 1
        rw [stX2Phi]
        refine Finset.sum_congr rfl (fun s2 _ => ?_)
        rw [stX2_pair]
        ring
    _ = _ := by
        rw [Matrix.mul_apply]
        refine Finset.sum_congr rfl (fun t2 _ => ?_)
        rw [Matrix.transpose_apply]

/-- At full rank (exact arithmetic), the tailored-strategy round trip is
exact as well: the per-spatial-mode pieces have mutually orthonormal
columns, so the combined basis is orthonormal and `expand (reduce X) = X`.
Together with the kronecker case this isolates the nested branch as the
one that breaks the round-trip property. -/
theorem tailoredRoundTripExact {T S P a r : ℕ} (X : Tensor3 T S P)
    (Phi : Mat S a) (Psi : Fin a → Mat T r)
    (hPhi : FullRankPOD Phi (stX1 X))
    (hPsi : ∀ i, FullRankPOD (Psi i) (stX2Phi X (fun s2 => Phi s2 i)))
    (npinv : Mat (T * S) (a * r) → Mat (a * r) (T * S)) :
    stExpandKT (stTailoredModes Phi Psi)
      (stReduceCoeffs (stTailoredModes Phi Psi) true npinv X) = X := by
  obtain ⟨hPhi1, hPhi2⟩ := hPhi
  have hMtM : (stTailoredModes Phi Psi)ᵀ * stTailoredModes Phi Psi = 1 := by
    ext c c2
    rw [Matrix.mul_apply]
    have hfact : ∑ r2, (stTailoredModes Phi Psi)ᵀ c r2
          * stTailoredModes Phi Psi r2 c2
        = (∑ t2 : Fin T, Psi (finQuot c) t2 (finRem c)
            * Psi (finQuot c2) t2 (finRem c2))
          * (∑ s2 : Fin S, Phi s2 (finQuot c) * Phi s2 (finQuot c2)) := by
      rw [Finset.sum_mul_sum]
      rw [sum_finPairR (fun r2 => (stTailoredModes Phi Psi)ᵀ c r2
        * stTailoredModes Phi Psi r2 c2)]
      refine Finset.sum_congr rfl (fun t2 _ => ?_)
      refine Finset.sum_congr rfl (fun s2 _ => ?_)
      rw [Matrix.transpose_apply, stTailoredModes, stTailoredModes,
        finQuot_finPairR, finRem_finPairR]
      ring
    rw [hfact]
    have hphi : (∑ s2 : Fin S, Phi s2 (finQuot c) * Phi s2 (finQuot c2))
        = (1 : Mat a a) (finQuot c) (finQuot c2) := by
      rw [← hPhi1, Matrix.mul_apply]
      refine Finset.sum_congr rfl (fun s2 _ => ?_)
      rw [Matrix.transpose_apply]
    by_cases hq : finQuot c = finQuot c2
    · have hpsi : (∑ t2 : Fin T, Psi (finQuot c) t2 (finRem c)
            * Psi (finQuot c2) t2 (finRem c2))
          = (1 : Mat r r) (finRem c) (finRem c2) := by
        rw [← hq, ← (hPsi (finQuot c)).1, Matrix.mul_apply]
        refine Finset.sum_congr rfl (fun t2 _ => ?_)
        rw [Matrix.transpose_apply]
      rw [hpsi, hphi, hq, Matrix.one_apply_eq]
      by_cases hr : finRem c = finRem c2
      · have hcc : c = c2 := by
          rw [← finPairR_quot_rem c, ← finPairR_quot_rem c2, hq, hr]
        rw [hr, Matrix.one_apply_eq, hcc, Matrix.one_apply_eq]
        ring
      · have hcc : c ≠ c2 := by
          intro hcon
          exact hr (by rw [hcon])
        rw [Matrix.one_apply_ne hr, Matrix.one_apply_ne hcc]
        ring
    · have hcc : c ≠ c2 := by
        intro hcon
        exact hq (by rw [hcon])
      rw [hphi, Matrix.one_apply_ne hq, Matrix.one_apply_ne hcc]
      ring
  have hinv : matInvE ((stTailoredModes Phi Psi)ᵀ * stTailoredModes Phi Psi)
      = 1 := by
    rw [hMtM, matInvE, Matrix.det_one, Matrix.adjugate_one, inv_one, one_smul]
  have hred : stReduceCoeffs (stTailoredModes Phi Psi) true npinv X
      = (stTailoredModes Phi Psi)ᵀ * stX3 X := by
    simp only [stReduceCoeffs, if_true, hinv, Matrix.one_mul]
  funext t s p
  rw [stExpandKT, hred, Matrix.mul_apply]
  calc ∑ c, stTailoredModes Phi Psi (finPairR t s) c
        * ((stTailoredModes Phi Psi)ᵀ * stX3 X) c p
      = ∑ i : Fin a, ∑ j : Fin r, stTailoredModes Phi Psi (finPairR t s)
          (finPairR i j)
          * ((stTailoredModes Phi Psi)ᵀ * stX3 X) (finPairR i j) p :=
        sum_finPairR _
    _ = ∑ i : Fin a, Phi s i * (∑ j : Fin r, Psi i t j
          * ((Psi i)ᵀ * stX2Phi X (fun s2 => Phi s2 i)) j p) := by
        refine Finset.sum_congr rfl (fun i _ => ?_)
        rw [Finset.mul_sum]
        refine Finset.sum_congr rfl (fun j _ => ?_)
        rw [tailoredReduce_entry, stTailoredModes, finQuot_finPairR,
          finRem_finPairR, finQuot_finPairR, finRem_finPairR]
        ring
    _ = ∑ i : Fin a, Phi s i * stX2Phi X (fun s2 => Phi s2 i) t p := by
        refine Finset.sum_congr rfl (fun i _ => ?_)
        congr 1
        calc ∑ j : Fin r, Psi i t j
              * ((Psi i)ᵀ * stX2Phi X (fun s2 => Phi s2 i)) j p
            = (Psi i * ((Psi i)ᵀ * stX2Phi X (fun s2 => Phi s2 i))) t p :=
              (Matrix.mul_apply).symm
          _ = stX2Phi X (fun s2 => Phi s2 i) t p := by rw [(hPsi i).2]
    _ = ∑ i : Fin a, ∑ s2 : Fin S, Phi s i * (X t s2 p * Phi s2 i) := by
        refine Finset.sum_congr rfl (fun i _ => ?_)
        rw [stX2Phi, Finset.mul_sum]
        refine Finset.sum_congr rfl (fun s2 _ => ?_)
        rw [stX2_pair]
    _ = ∑ s2 : Fin S, ∑ i : Fin a, Phi s i * (X t s2 p * Phi s2 i) :=
        Finset.sum_comm
    _ = ∑ s2 : Fin S, (Phi * Phiᵀ) s s2 * X t s2 p := by
        refine Finset.sum_congr rfl (fun s2 _ => ?_)
        rw [Matrix.mul_apply, Finset.sum_mul]
        refine Finset.sum_congr rfl (fun i _ => ?_)
        rw [Matrix.transpose_apply]
        ring
    _ = X t s p := phiProj_entry X Phi hPhi2 s t p
